import Mathlib

/-!
Shallow embedding of `src/enhanced_whitespace_cleaner.py` (the text analysis and
transformation engine: watermark scanning, visible-whitespace rendering, the
cleaning pipeline and the undo/redo history), together with proofs about it.

Text is modelled as `List Char` (a Python `str` is a sequence of code points).
The PyQt presentation shell (widgets, dialogs, signals) is out of scope; the
methods below are embedded as pure state transitions on the fields they touch
(`input_text`, `output_text`, `history`, `history_index`).
-/

namespace WhitespaceCleaner

/-- The watermark reference set of `re.compile` at line 54 (and the identical
character classes at lines 273 and 307): ZWSP, ZWNJ, ZWJ, NNBSP, NBSP, WJ,
ZWNBSP/BOM, em dash, en dash. -/
def watermarkChars : List Char :=
  ['\u200B', '\u200C', '\u200D', '\u202F', '\u00A0', '\u2060', '\uFEFF', '\u2014', '\u2013']

/-- Characters matched by Python's `\s` for `str` patterns (also the set
stripped by `str.strip()`): ASCII whitespace, the separator controls, and the
Unicode space characters. -/
def pyIsSpace (c : Char) : Bool :=
  c ∈ [' ', '\t', '\n', '\r', '\x0B', '\x0C',
       '\x1C', '\x1D', '\x1E', '\x1F', '\x85',
       '\u00A0', '\u1680', '\u2000', '\u2001', '\u2002', '\u2003', '\u2004',
       '\u2005', '\u2006', '\u2007', '\u2008', '\u2009', '\u200A',
       '\u2028', '\u2029', '\u202F', '\u205F', '\u3000']

/-- Characters matched by Python's `\w` (word characters): alphanumeric or
underscore (restricted here to the ASCII range, which covers every input the
claims exercise; the watermark characters are word characters in neither
reading). -/
def isWordChar (c : Char) : Bool := c.isAlphanum || c = '_'

/-- `str.lower()` applied per character (ASCII case folding). -/
def pyLower (c : Char) : Char := c.toLower

/-- Python `str.replace(old, new)` for a single-character `old`: one
left-to-right pass, never rescanning its own output. -/
def strReplaceChar (old : Char) (new : List Char) (s : List Char) : List Char :=
  s.flatMap (fun c => if c = old then new else [c])

/-- Worker for `collapseRuns`; the flag records whether the previous character
was inside a run already replaced. -/
def collapseRunsAux (p : Char → Bool) (r : Char) : List Char → Bool → List Char
  | [], _ => []
  | c :: rest, inRun =>
    if p c then
      if inRun then collapseRunsAux p r rest true
      else r :: collapseRunsAux p r rest true
    else c :: collapseRunsAux p r rest false

/-- `re.sub` for a single-character-class pattern repeated (`[...]+`): every
maximal run of characters satisfying `p` is replaced by the single character
`r`.  Embeds `re.sub(r'\s+', ' ', text)` (line 289) and
`re.sub(r'\n+', '\n', text)` (line 299). -/
def collapseRuns (p : Char → Bool) (r : Char) (l : List Char) : List Char :=
  collapseRunsAux p r l false

/-- Line-break characters recognised by Python `str.splitlines()` (with `\r\n`
treated as one break by `splitlinesAux`). -/
def isLineBreakChar (c : Char) : Bool :=
  c ∈ ['\n', '\r', '\x0B', '\x0C', '\x1C', '\x1D', '\x1E', '\x85', '\u2028', '\u2029']

/-- Worker for `splitlinesPy`, accumulating the current (reversed) line. -/
def splitlinesAux : List Char → List Char → List (List Char)
  | [], acc => if acc.isEmpty then [] else [acc.reverse]
  | '\r' :: '\n' :: rest, acc => acc.reverse :: splitlinesAux rest []
  | c :: rest, acc =>
    if isLineBreakChar c then acc.reverse :: splitlinesAux rest []
    else splitlinesAux rest (c :: acc)
termination_by l _ => l.length
decreasing_by all_goals simp_arith

/-- Python `str.splitlines()`. -/
def splitlinesPy (t : List Char) : List (List Char) := splitlinesAux t []

/-- Python `str.strip()`: drop leading and trailing whitespace. -/
def pyStrip (l : List Char) : List Char :=
  ((l.dropWhile pyIsSpace).reverse.dropWhile pyIsSpace).reverse

/-- The `replace_invisible` callback of `detect_whitespace` (lines 265-271):
NNBSP becomes the reference mark, ZWSP and ZWNBSP become the diamond, and any
other matched character is returned unchanged. -/
def replace_invisible (c : Char) : List Char :=
  if c = '\u202F' then ['※']
  else if c = '\u200B' ∨ c = '\uFEFF' then ['◆']
  else [c]

/-- The `re.sub(watermark class, replace_invisible, text)` call of line 273. -/
def subInvisible (s : List Char) : List Char :=
  s.flatMap (fun c => if c ∈ watermarkChars then replace_invisible c else [c])

/-- The rendering core of `detect_whitespace` (lines 259-273): the three
`str.replace` passes for space, tab and newline, followed by the watermark
substitution. -/
def render (t : List Char) : List Char :=
  subInvisible
    (strReplaceChar '\n' ['¶', '\n']
      (strReplaceChar '\t' ['→']
        (strReplaceChar ' ' ['·'] t)))

/-- The marker glyphs that `render` can introduce. -/
def markerGlyphs : List Char := ['·', '→', '¶', '※', '◆']

/-- The `unicode_pattern.finditer(self.text)` loop of lines 55-58: the
occurrences of watermark characters, in position order, with their offsets.
(The source formats each occurrence as an `f"{char} (U+...: {name})"` string;
the `unicodedata.name` lookup is an external library call, so the embedding
records the matched character itself.) -/
def finditerWm (i : Nat) : List Char → List (Nat × Char)
  | [] => []
  | c :: rest =>
    if c ∈ watermarkChars then (i, c) :: finditerWm (i + 1) rest
    else finditerWm (i + 1) rest

/-- Worker for `findWords`, accumulating the current (reversed) word run. -/
def splitWordsAux : List Char → Option (List Char) → List (List Char)
  | [], none => []
  | [], some w => [w.reverse]
  | c :: rest, none =>
    if isWordChar c then splitWordsAux rest (some [c])
    else splitWordsAux rest none
  | c :: rest, some w =>
    if isWordChar c then splitWordsAux rest (some (c :: w))
    else w.reverse :: splitWordsAux rest none

/-- `re.findall(r'\b\w+\b', text)` (line 61): the maximal runs of word
characters, in order. -/
def findWords (t : List Char) : List (List Char) := splitWordsAux t none

/-- `collections.Counter(words)` as an insertion-ordered association list. -/
def counterAdd (w : List Char) : List (List Char × Nat) → List (List Char × Nat)
  | [] => [(w, 1)]
  | (x, n) :: rest =>
    if x = w then (x, n + 1) :: rest else (x, n) :: counterAdd w rest

/-- The counter built from a word list (line 62). -/
def counterOf (ws : List (List Char)) : List (List Char × Nat) :=
  ws.foldl (fun acc w => counterAdd w acc) []

/-- Stable insertion (descending by count) used to model the stable sort
behind `Counter.most_common`. -/
def insertByCount (p : List Char × Nat) : List (List Char × Nat) → List (List Char × Nat)
  | [] => [p]
  | q :: rest => if q.2 < p.2 then p :: q :: rest else q :: insertByCount p rest

/-- `Counter.most_common(n)` (line 63): entries sorted by count, descending,
ties broken by first insertion (the sort is stable), truncated to `n`. -/
def most_common (n : Nat) (c : List (List Char × Nat)) : List (List Char × Nat) :=
  (c.foldr insertByCount []).take n

/-- The `stats` dictionary built at lines 67-73.  `details` keeps the matched
characters (the source stores their formatted name strings); `word_entropy`
is exact (it is only ever `0`, see `scanRun`). -/
structure ScanStats where
  invisible_chars : Nat
  details : List Char
  word_entropy : ℚ
  ai_likelihood : String
  top_words : List (List Char)
deriving DecidableEq, Repr

/-- The abnormal termination of `WatermarkScanThread.run`: line 64 evaluates
`re.log2(...)`, and the `re` module has no attribute `log2`. -/
inductive ScanError where
  | reLog2Missing : ScanError
deriving DecidableEq, Repr

/-- `WatermarkScanThread.run` (lines 51-74).  The occurrence pass and the word
counting (lines 53-63) always complete.  The entropy expression of line 64 is
a conditional: with zero words it short-circuits to `0` without touching the
generator, and the stats dictionary is emitted; with at least one word the
generator evaluates `re.log2`, which does not exist in Python's `re` module,
so an `AttributeError` propagates and no stats are emitted.  The source's
threshold literal `4.5` (line 65) is written as the exact rational
`mkRat 9 2`. -/
def scanRun (text : List Char) : Except ScanError ScanStats :=
  let invisible_chars := (finditerWm 0 text).map Prod.snd
  let words := findWords (text.map pyLower)
  let word_counter := counterOf words
  let top_words := (most_common 10 word_counter).map Prod.fst
  if words.isEmpty then
    let entropy : ℚ := 0
    let ai_likelihood := if entropy < mkRat 9 2 then "High" else "Low"
    Except.ok
      { invisible_chars := invisible_chars.length
        details := invisible_chars.take 10
        word_entropy := entropy
        ai_likelihood := ai_likelihood
        top_words := top_words }
  else Except.error ScanError.reLog2Missing

/-- The cleaning options of `clean_whitespace` (lines 288-312): the checkbox
and combo-box state read during one clean invocation, plus the custom regex
pattern and replacement strings. -/
structure CleanOptions where
  remove_spaces : Bool
  remove_tabs : Bool
  replace_tabs : Bool
  tab_spaces : Nat
  remove_newlines : Bool
  trim_lines : Bool
  remove_invisible : Bool
  regex_input : List Char
  regex_replace : List Char
deriving DecidableEq, Repr

/-- The mutable state of `WhitespaceCleaner` touched by the embedded methods:
the input buffer, the rendered output buffer, and the undo/redo history with
its cursor (`history_index`, `-1` meaning no history, as set at line 84). -/
structure AppState where
  input_text : List Char
  output_text : List Char
  history : List (List Char)
  history_index : Int
deriving DecidableEq, Repr

/-- `detect_whitespace` (lines 252-276): on empty input it only shows a
warning and returns; otherwise it renders the input buffer into the output
buffer. -/
def detect_whitespace (st : AppState) : AppState :=
  if st.input_text = [] then st
  else { st with output_text := render st.input_text }

/-- The history recording of `clean_whitespace` (lines 317-320): truncate the
entries to `[0, history_index]`, append the snapshot, advance the cursor. -/
def recordHistory (snapshot : List Char) (st : AppState) : AppState :=
  { st with
    history := st.history.take (st.history_index + 1).toNat ++ [snapshot]
    history_index := st.history_index + 1 }

/-- `re.sub(watermark class, ' ', text)` of line 307. -/
def subWatermarkSpace (s : List Char) : List Char :=
  s.flatMap (fun c => if c ∈ watermarkChars then [' '] else [c])

/-- Stages 1-6 of `clean_whitespace` (lines 288-307), applied in the source's
fixed order: collapse whitespace, strip tabs, expand tabs, collapse newline
runs, trim line edges, strip watermark candidates. -/
def pipelineStages (opts : CleanOptions) (t0 : List Char) : List Char :=
  let t1 := if opts.remove_spaces then collapseRuns pyIsSpace ' ' t0 else t0
  let t2 := if opts.remove_tabs then strReplaceChar '\t' [] t1 else t1
  let t3 := if opts.replace_tabs then
      strReplaceChar '\t' (List.replicate opts.tab_spaces ' ') t2
    else t2
  let t4 := if opts.remove_newlines then collapseRuns (fun c => c = '\n') '\n' t3 else t3
  let t5 := if opts.trim_lines then List.intercalate ['\n'] ((splitlinesPy t4).map pyStrip) else t4
  if opts.remove_invisible then subWatermarkSpace t5 else t5

/-- The external regex engine behind `re.sub(pattern, repl, text)`: the `re`
module is a library, so it enters the embedding as a parameter; a pattern that
fails to compile makes every call return `Except.error` (Python's
`re.error`). -/
def ReEngine : Type := List Char → List Char → List Char → Except Unit (List Char)

/-- An engine whose pattern fails to compile: every `re.sub` call raises
`re.error`. -/
def badPatternEngine : ReEngine := fun _ _ _ => Except.error ()

/-- The successful tail of `clean_whitespace` (lines 317-325): save the
pre-clean text to history, set the input buffer to the cleaned text, and
re-render (`update_stats` and the status bar touch no embedded field). -/
def commitClean (original cleaned : List Char) (st : AppState) : AppState :=
  detect_whitespace { recordHistory original st with input_text := cleaned }

/-- `clean_whitespace` (lines 278-326): empty input only warns; otherwise the
six pipeline stages run, then, when a custom pattern is present, `re.sub` is
attempted — on `re.error` the method warns and returns with no state change
(lines 313-315); otherwise the result is committed. -/
def clean_whitespace (engine : ReEngine) (opts : CleanOptions) (st : AppState) : AppState :=
  if st.input_text = [] then st
  else
    let original_text := st.input_text
    let text := pipelineStages opts st.input_text
    if opts.regex_input ≠ [] then
      match engine opts.regex_input opts.regex_replace text with
      | Except.error _ => st
      | Except.ok text2 => commitClean original_text text2 st
    else commitClean original_text text st

/-- `undo` (lines 351-358): only when the cursor is above `0`, decrement it,
restore that snapshot into the input buffer, and re-render. -/
def undo (st : AppState) : AppState :=
  if 0 < st.history_index then
    detect_whitespace
      { st with
        history_index := st.history_index - 1
        input_text := st.history.getD (st.history_index - 1).toNat [] }
  else st

/-- `redo` (lines 360-367): only when the cursor is below the last index,
increment it, restore that snapshot, and re-render. -/
def redo (st : AppState) : AppState :=
  if st.history_index < (st.history.length : Int) - 1 then
    detect_whitespace
      { st with
        history_index := st.history_index + 1
        input_text := st.history.getD (st.history_index + 1).toNat [] }
  else st

/-- `clear_text` (lines 369-377): clear both buffers and reset the history. -/
def clear_text (_st : AppState) : AppState :=
  { input_text := [], output_text := [], history := [], history_index := -1 }

/-- A history-store operation, for reasoning about arbitrary operation
sequences. -/
inductive HistOp where
  | recordOp : List Char → HistOp
  | undoOp : HistOp
  | redoOp : HistOp
  | clearOp : HistOp

/-- Apply one history operation to the state. -/
def applyOp (st : AppState) : HistOp → AppState
  | HistOp.recordOp s => recordHistory s st
  | HistOp.undoOp => undo st
  | HistOp.redoOp => redo st
  | HistOp.clearOp => clear_text st

/-- Run a sequence of history operations. -/
def runOps (ops : List HistOp) (st : AppState) : AppState := ops.foldl applyOp st

/-- The initial state built by `__init__` (lines 83-84): empty buffers, empty
history, cursor `-1`. -/
def initState : AppState :=
  { input_text := [], output_text := [], history := [], history_index := -1 }

/-- The history invariant of the spec (section 3): the cursor stays in
`[-1, length - 1]`. -/
def HistInv (st : AppState) : Prop :=
  -1 ≤ st.history_index ∧ st.history_index ≤ (st.history.length : Int) - 1

theorem render_cons (c : Char) (l : List Char) : render (c :: l) = render [c] ++ render l := by
  simp [render, strReplaceChar, subInvisible, List.flatMap_cons, List.flatMap_append]

theorem render_flatMap (l : List Char) : render l = l.flatMap (fun c => render [c]) := by
  induction l with
  | nil => rfl
  | cons c t ih => rw [render_cons, ih, List.flatMap_cons, ← ih]

/-- C4: the claim says `render` maps every watermark candidate other than
U+202F to the diamond glyph.  It does not: `replace_invisible` returns all
characters other than U+202F, U+200B and U+FEFF unchanged, so the no-break
space U+00A0 renders as itself, not as the diamond. -/
theorem c4_counterexample :
    render [' '] = [' '] ∧ (' ' : Char) ≠ '◆' := by decide

/-- C4 (amended): `render` acts characterwise; it maps U+202F to the
reference mark and U+200B and U+FEFF to the diamond, while the remaining
watermark candidates U+200C, U+200D, U+00A0, U+2060, U+2014 and U+2013 pass
through unchanged. -/
theorem c4_amended_rendering :
    (∀ l : List Char, render l = l.flatMap (fun c => render [c]))
    ∧ render [' '] = ['※']
    ∧ render ['​'] = ['◆'] ∧ render ['﻿'] = ['◆']
    ∧ render ['‌'] = ['‌'] ∧ render ['‍'] = ['‍']
    ∧ render [' '] = [' '] ∧ render ['⁠'] = ['⁠']
    ∧ render ['—'] = ['—'] ∧ render ['–'] = ['–'] :=
  ⟨render_flatMap, by decide⟩

/-- C9: the marker glyphs are disjoint from the characters `render`
substitutes, so text made of marker glyphs — in particular every marker a
first application of `render` introduced — passes through `render`
unchanged: a second application never double-substitutes a marker. -/
theorem c9_markers_fixed (l : List Char) (h : ∀ c ∈ l, c ∈ markerGlyphs) :
    render l = l := by
  induction l with
  | nil => rfl
  | cons c t ih =>
    have hc : c ∈ markerGlyphs := h c (List.mem_cons_self c t)
    have ht : render t = t := ih (fun x hx => h x (List.mem_cons_of_mem c hx))
    have hone : render [c] = [c] := by
      simp only [markerGlyphs, List.mem_cons, List.not_mem_nil, or_false] at hc
      rcases hc with rfl | rfl | rfl | rfl | rfl <;> rfl
    rw [render_cons, ht, hone, List.singleton_append]

theorem c9_witness : render ['·', '→', '¶', '※', '◆'] = ['·', '→', '¶', '※', '◆'] :=
  c9_markers_fixed ['·', '→', '¶', '※', '◆'] (by decide)

theorem finditerWm_map_snd (t : List Char) :
    ∀ i, (finditerWm i t).map Prod.snd = t.filter (fun c => decide (c ∈ watermarkChars)) := by
  induction t with
  | nil => intro i; rfl
  | cons c rest ih =>
    intro i
    by_cases hc : c ∈ watermarkChars
    · simp [finditerWm, List.filter_cons, hc, ih (i + 1)]
    · simp [finditerWm, List.filter_cons, hc, ih (i + 1)]

theorem finditerWm_fst_ge (t : List Char) :
    ∀ i p, p ∈ finditerWm i t → i ≤ p.1 := by
  induction t with
  | nil => intro i p hp; simp [finditerWm] at hp
  | cons c rest ih =>
    intro i p hp
    by_cases hc : c ∈ watermarkChars
    · rw [finditerWm, if_pos hc] at hp
      rcases List.mem_cons.mp hp with rfl | hp'
      · exact Nat.le_refl i
      · exact Nat.le_trans (Nat.le_succ i) (ih (i + 1) p hp')
    · rw [finditerWm, if_neg hc] at hp
      exact Nat.le_trans (Nat.le_succ i) (ih (i + 1) p hp)

theorem finditerWm_pairwise (t : List Char) :
    ∀ i, (finditerWm i t).Pairwise (fun a b => a.1 < b.1) := by
  induction t with
  | nil => intro i; simp [finditerWm]
  | cons c rest ih =>
    intro i
    by_cases hc : c ∈ watermarkChars
    · rw [finditerWm, if_pos hc]
      refine List.Pairwise.cons ?_ (ih (i + 1))
      intro b hb
      exact Nat.lt_of_lt_of_le (Nat.lt_succ_self i) (finditerWm_fst_ge rest (i + 1) b hb)
    · rw [finditerWm, if_neg hc]
      exact ih (i + 1)

/-- C1: the occurrence pass of `scan` enumerates exactly the code points of
the text that belong to the watermark reference set, in position order
(strictly increasing offsets), and whenever the scan delivers a report its
total occurrence count equals the number of such code points in the text. -/
theorem c1_scan_count (t : List Char) :
    ((finditerWm 0 t).map Prod.snd = t.filter (fun c => decide (c ∈ watermarkChars)))
    ∧ (finditerWm 0 t).Pairwise (fun a b => a.1 < b.1)
    ∧ ∀ r, scanRun t = Except.ok r →
        r.invisible_chars = t.countP (fun c => decide (c ∈ watermarkChars)) := by
  refine ⟨finditerWm_map_snd t 0, finditerWm_pairwise t 0, ?_⟩
  intro r hr
  simp only [scanRun] at hr
  split at hr
  · cases hr
    show ((finditerWm 0 t).map Prod.snd).length = _
    rw [finditerWm_map_snd t 0, ← List.countP_eq_length_filter]
  · cases hr

theorem c1_witness :
    ((finditerWm 0 ['\u200B', '\u2014']).map Prod.snd
       = List.filter (fun c => decide (c ∈ watermarkChars)) ['\u200B', '\u2014'])
    ∧ (ScanStats.mk 2 ['\u200B', '\u2014'] 0 "High" []).invisible_chars
       = List.countP (fun c => decide (c ∈ watermarkChars)) ['\u200B', '\u2014'] :=
  ⟨(c1_scan_count ['\u200B', '\u2014']).1,
   (c1_scan_count ['\u200B', '\u2014']).2.2
     (ScanStats.mk 2 ['\u200B', '\u2014'] 0 "High" []) (by rfl)⟩

/-- C2: the claim states the entropy formula and the High/Low threshold.  The
code never computes them for a text with word tokens: at the failing input
"hello" line 64 evaluates `re.log2`, the `re` module has no attribute
`log2`, and the scan aborts with an `AttributeError` instead of producing an
entropy or a label. -/
theorem c2_entropy_crash :
    scanRun (String.toList "hello") = Except.error ScanError.reLog2Missing := by rfl

/-- C3: for every text containing at least one word token, the heuristic pass
of `scan` evaluates `re.log2` — which does not exist in Python's `re` module —
so the scan terminates abnormally and delivers no report. -/
theorem c3_scan_raises (t : List Char) (h : findWords (t.map pyLower) ≠ []) :
    scanRun t = Except.error ScanError.reLog2Missing := by
  simp [scanRun, List.isEmpty_iff, h]

theorem c3_witness : scanRun ['a'] = Except.error ScanError.reLog2Missing :=
  c3_scan_raises ['a'] (by decide)

/-- C10: the claim bounds the entropy computed by `scan` for texts with a
non-empty word multiset; for all such texts the scan instead aborts while
evaluating `re.log2` (which does not exist), so no entropy value is produced —
here evaluated at the failing input "foo foo". -/
theorem c10_entropy_crash :
    scanRun (String.toList "foo foo") = Except.error ScanError.reLog2Missing := by rfl

theorem not_mem_strReplaceChar (old : Char) (new : List Char) (h : old ∉ new)
    (s : List Char) : old ∉ strReplaceChar old new s := by
  induction s with
  | nil => simp [strReplaceChar]
  | cons c rest ih =>
    simp only [strReplaceChar, List.flatMap_cons] at ih ⊢
    by_cases hc : c = old
    · simp only [if_pos hc, List.mem_append]
      exact fun hmem => hmem.elim (fun hx => h hx) (fun hx => ih hx)
    · simp only [if_neg hc, List.singleton_append, List.mem_cons]
      exact fun hmem => hmem.elim (fun hx => hc hx.symm) (fun hx => ih hx)

theorem strReplaceChar_of_not_mem (old : Char) (new : List Char) (s : List Char)
    (h : old ∉ s) : strReplaceChar old new s = s := by
  induction s with
  | nil => rfl
  | cons c rest ih =>
    have hco : ¬c = old := fun hco => h (hco ▸ List.mem_cons_self c rest)
    have hrest : old ∉ rest := fun hx => h (List.mem_cons_of_mem c hx)
    simp only [strReplaceChar, List.flatMap_cons, if_neg hco, List.singleton_append,
      List.cons.injEq, true_and]
    exact ih hrest

theorem pipeline_strip_expand (rs rn tl ri : Bool) (n : Nat) (rx rr : List Char)
    (t : List Char) :
    pipelineStages (CleanOptions.mk rs true true n rn tl ri rx rr) t
      = pipelineStages (CleanOptions.mk rs true false n rn tl ri rx rr) t := by
  simp only [pipelineStages, if_true, if_false]
  rw [strReplaceChar_of_not_mem _ _ _
    (not_mem_strReplaceChar '\t' [] (List.not_mem_nil '\t') _)]
  rfl

/-- C5: when the supplied custom pattern fails to compile (every `re.sub`
call on it raises `re.error`), `clean_whitespace` aborts atomically: the
returned state is exactly the pre-clean state — input buffer, output buffer
and history (entries and cursor) all unchanged; the already-computed pipeline
output is discarded. -/
theorem c5_invalid_pattern_atomic (e : ReEngine) (opts : CleanOptions) (st : AppState)
    (hne : opts.regex_input ≠ [])
    (herr : ∀ t, e opts.regex_input opts.regex_replace t = Except.error ()) :
    clean_whitespace e opts st = st := by
  simp only [clean_whitespace]
  by_cases hin : st.input_text = []
  · rw [if_pos hin]
  · rw [if_neg hin, if_pos hne, herr]

theorem c5_witness :
    clean_whitespace badPatternEngine
        (CleanOptions.mk false false false 2 false false false ['a'] [' '])
        (AppState.mk ['x'] [] [] (-1))
      = AppState.mk ['x'] [] [] (-1) :=
  c5_invalid_pattern_atomic badPatternEngine
    (CleanOptions.mk false false false 2 false false false ['a'] [' '])
    (AppState.mk ['x'] [] [] (-1)) (by decide) (fun _ => rfl)

/-- C6: `clean_whitespace` applies strip-tabs strictly before expand-tabs, so
with both enabled the clean is identical to one with strip-tabs alone (strip
wins); in particular the input "a\t\tb" with strip-tabs and expand-tabs(4)
cleans to "ab". -/
theorem c6_strip_before_expand :
    (∀ (e : ReEngine) (st : AppState) (rs rn tl ri : Bool) (n : Nat) (rx rr : List Char),
        clean_whitespace e (CleanOptions.mk rs true true n rn tl ri rx rr) st
          = clean_whitespace e (CleanOptions.mk rs true false n rn tl ri rx rr) st)
    ∧ (clean_whitespace (fun _ _ t => Except.ok t)
          (CleanOptions.mk false true true 4 false false false [] [])
          (AppState.mk (String.toList "a\t\tb") [] [] (-1))).input_text
        = String.toList "ab" := by
  constructor
  · intro e st rs rn tl ri n rx rr
    simp only [clean_whitespace, pipeline_strip_expand]
  · rfl

theorem detect_input_text (st : AppState) :
    (detect_whitespace st).input_text = st.input_text := by
  unfold detect_whitespace; split <;> rfl

theorem detect_history (st : AppState) :
    (detect_whitespace st).history = st.history := by
  unfold detect_whitespace; split <;> rfl

theorem detect_history_index (st : AppState) :
    (detect_whitespace st).history_index = st.history_index := by
  unfold detect_whitespace; split <;> rfl

theorem getD_append_at_length {α : Type} (l₁ : List α) (a : α) (l₂ : List α) (d : α) :
    (l₁ ++ a :: l₂).getD l₁.length d = a := by
  induction l₁ with
  | nil => rfl
  | cons x rest ih => exact ih

theorem take_length_append {α : Type} (l₁ l₂ : List α) :
    (l₁ ++ l₂).take l₁.length = l₁ := by
  induction l₁ with
  | nil => rfl
  | cons x rest ih => simp [List.take_cons, ih]

theorem take_append_of_eq_length {α : Type} (n : Nat) (l₁ l₂ : List α)
    (h : n = l₁.length) : (l₁ ++ l₂).take n = l₁ := by
  rw [h, take_length_append]

/-- C7: from any state satisfying the history invariant, after
`record(A); record(B); undo()` the current snapshot is `A`; a subsequent
`redo()` restores `B`; and after `record(A); undo(); record(C)` a `redo()` is
a full no-op, because recording at a cursor not at the tail discards every
entry after the cursor. -/
theorem c7_history_semantics (st : AppState) (A B C : List Char) (h : HistInv st) :
    (undo (recordHistory B (recordHistory A st))).input_text = A
    ∧ (redo (undo (recordHistory B (recordHistory A st)))).input_text = B
    ∧ redo (recordHistory C (undo (recordHistory A st)))
        = recordHistory C (undo (recordHistory A st)) := by
  obtain ⟨inp, outp, H, idx⟩ := st
  obtain ⟨h1, h2⟩ := h
  simp only [AppState.mk.injEq] at h1 h2 ⊢
  have hlen : (idx + 1).toNat ≤ H.length := by omega
  have hT : (H.take (idx + 1).toNat).length = (idx + 1).toNat := by
    rw [List.length_take]; omega
  have hTfull : ((H.take (idx + 1).toNat ++ [A]).take (idx + 1 + 1).toNat)
      = H.take (idx + 1).toNat ++ [A] := by
    have hlen2 : (idx + 1 + 1).toNat = (H.take (idx + 1).toNat ++ [A]).length := by
      simp only [List.length_append, List.length_cons, List.length_nil, hT]; omega
    rw [hlen2, List.take_length]
  have hst2 : recordHistory B (recordHistory A (AppState.mk inp outp H idx))
      = AppState.mk inp outp (H.take (idx + 1).toNat ++ [A] ++ [B]) (idx + 2) := by
    simp only [recordHistory, hTfull]
    congr 1
    omega
  have hassoc : H.take (idx + 1).toNat ++ [A] ++ [B]
      = H.take (idx + 1).toNat ++ (A :: [B]) := by
    rw [List.append_assoc]; rfl
  have hu : undo (AppState.mk inp outp (H.take (idx + 1).toNat ++ [A] ++ [B]) (idx + 2))
      = detect_whitespace (AppState.mk A outp
          (H.take (idx + 1).toNat ++ [A] ++ [B]) (idx + 1)) := by
    unfold undo
    rw [if_pos (by simp only []; omega)]
    show detect_whitespace (AppState.mk
        ((H.take (idx + 1).toNat ++ [A] ++ [B]).getD (idx + 2 - 1).toNat []) outp
        (H.take (idx + 1).toNat ++ [A] ++ [B]) (idx + 2 - 1)) = _
    have hgd : (H.take (idx + 1).toNat ++ [A] ++ [B]).getD (idx + 2 - 1).toNat
        ([] : List Char) = A := by
      have hidx : (idx + 2 - 1).toNat = (H.take (idx + 1).toNat).length := by
        rw [hT]; omega
      rw [hidx, hassoc, getD_append_at_length]
    rw [hgd, show idx + 2 - 1 = idx + 1 from by omega]
  constructor
  · rw [hst2, hu, detect_input_text]
  constructor
  · rw [hst2, hu]
    set u := detect_whitespace (AppState.mk A outp
      (H.take (idx + 1).toNat ++ [A] ++ [B]) (idx + 1)) with hudef
    have huh : u.history = H.take (idx + 1).toNat ++ [A] ++ [B] := by
      rw [hudef, detect_history]
    have hui : u.history_index = idx + 1 := by
      rw [hudef, detect_history_index]
    unfold redo
    rw [if_pos (by rw [huh, hui]; simp only [List.length_append, List.length_cons,
      List.length_nil, hT]; push_cast; omega)]
    rw [detect_input_text]
    have hidx2 : (u.history_index + 1).toNat = (H.take (idx + 1).toNat ++ [A]).length := by
      rw [hui]
      simp only [List.length_append, List.length_cons, List.length_nil, hT]; omega
    rw [hidx2, huh]
    have : H.take (idx + 1).toNat ++ [A] ++ [B]
        = (H.take (idx + 1).toNat ++ [A]) ++ B :: [] := rfl
    rw [this, getD_append_at_length]
  · by_cases hpos : 0 < idx + 1
    · have hu1 : undo (recordHistory A (AppState.mk inp outp H idx))
          = detect_whitespace (AppState.mk
              ((H.take (idx + 1).toNat ++ [A]).getD idx.toNat []) outp
              (H.take (idx + 1).toNat ++ [A]) idx) := by
        unfold undo
        rw [if_pos (by simp only [recordHistory]; omega)]
        show detect_whitespace (AppState.mk
            ((H.take (idx + 1).toNat ++ [A]).getD (idx + 1 - 1).toNat []) outp
            (H.take (idx + 1).toNat ++ [A]) (idx + 1 - 1)) = _
        rw [show idx + 1 - 1 = idx from by omega]
      rw [hu1]
      set u := detect_whitespace (AppState.mk
        ((H.take (idx + 1).toNat ++ [A]).getD idx.toNat []) outp
        (H.take (idx + 1).toNat ++ [A]) idx) with hudef
      have huh : u.history = H.take (idx + 1).toNat ++ [A] := by
        rw [hudef, detect_history]
      have hui : u.history_index = idx := by
        rw [hudef, detect_history_index]
      have hrc : (recordHistory C u).history = H.take (idx + 1).toNat ++ [C] := by
        simp only [recordHistory, huh, hui]
        rw [take_append_of_eq_length _ _ _ hT.symm]
      have hrci : (recordHistory C u).history_index = idx + 1 := by
        simp only [recordHistory, hui]
      unfold redo
      rw [if_neg]
      rw [hrc, hrci]
      simp only [List.length_append, List.length_cons, List.length_nil, hT]
      push_cast; omega
    · have hidxm : idx = -1 := by omega
      subst hidxm
      have hTnil : H.take ((-1 : Int) + 1).toNat = ([] : List (List Char)) := by
        norm_num
      have hu1 : undo (recordHistory A (AppState.mk inp outp H (-1)))
          = recordHistory A (AppState.mk inp outp H (-1)) := by
        unfold undo
        rw [if_neg (by simp only [recordHistory]; omega)]
      rw [hu1]
      have hrc : (recordHistory C (recordHistory A (AppState.mk inp outp H (-1)))).history
          = [A, C] := by
        simp only [recordHistory, hTnil]
        rfl
      have hrci : (recordHistory C (recordHistory A (AppState.mk inp outp H (-1)))).history_index
          = 1 := by
        simp only [recordHistory]
        rfl
      unfold redo
      rw [if_neg]
      rw [hrc, hrci]
      norm_num

theorem c7_witness :
    (undo (recordHistory ['b'] (recordHistory ['a'] initState))).input_text = ['a']
    ∧ (redo (undo (recordHistory ['b'] (recordHistory ['a'] initState)))).input_text = ['b']
    ∧ redo (recordHistory ['c'] (undo (recordHistory ['a'] initState)))
        = recordHistory ['c'] (undo (recordHistory ['a'] initState)) :=
  c7_history_semantics initState ['a'] ['b'] ['c'] ⟨by decide, by decide⟩

theorem applyOp_inv (st : AppState) (op : HistOp) (h : HistInv st) :
    HistInv (applyOp st op) := by
  obtain ⟨h1, h2⟩ := h
  cases op with
  | recordOp s =>
    constructor
    · show -1 ≤ st.history_index + 1
      omega
    · show st.history_index + 1
        ≤ ((st.history.take (st.history_index + 1).toNat ++ [s]).length : Int) - 1
      simp only [List.length_append, List.length_take, List.length_cons, List.length_nil]
      push_cast
      omega
  | undoOp =>
    simp only [applyOp, undo]
    split
    · constructor
      · rw [detect_history_index]; dsimp only; omega
      · rw [detect_history_index, detect_history]; dsimp only; omega
    · exact ⟨h1, h2⟩
  | redoOp =>
    simp only [applyOp, redo]
    split
    · constructor
      · rw [detect_history_index]; dsimp only; omega
      · rw [detect_history_index, detect_history]; dsimp only; omega
    · exact ⟨h1, h2⟩
  | clearOp =>
    constructor
    · show (-1 : Int) ≤ -1
      omega
    · show (-1 : Int) ≤ (([] : List (List Char)).length : Int) - 1
      simp

theorem runOps_inv (ops : List HistOp) : ∀ st, HistInv st → HistInv (runOps ops st) := by
  induction ops with
  | nil => intro st h; exact h
  | cons op rest ih =>
    intro st h
    exact ih (applyOp st op) (applyOp_inv st op h)

/-- C8: for every sequence of record/undo/redo/clear operations from the
empty history, the cursor satisfies `-1 ≤ cursor ≤ length - 1`; `undo` and
`redo` on exhausted history are silent full no-ops; and when they do fire,
the snapshot access they perform is in range (so they can never raise). -/
theorem c8_cursor_invariant :
    (∀ ops : List HistOp, HistInv (runOps ops initState))
    ∧ (∀ st : AppState, st.history_index ≤ 0 → undo st = st)
    ∧ (∀ st : AppState, (st.history.length : Int) - 1 ≤ st.history_index → redo st = st)
    ∧ (∀ st : AppState, HistInv st → 0 < st.history_index →
        (st.history_index - 1).toNat < st.history.length)
    ∧ (∀ st : AppState, HistInv st → st.history_index < (st.history.length : Int) - 1 →
        (st.history_index + 1).toNat < st.history.length) := by
  refine ⟨fun ops => runOps_inv ops initState ⟨by decide, by decide⟩, ?_, ?_, ?_, ?_⟩
  · intro st hle
    unfold undo
    rw [if_neg (by omega)]
  · intro st hge
    unfold redo
    rw [if_neg (by omega)]
  · intro st h hpos
    obtain ⟨h1, h2⟩ := h
    omega
  · intro st h hlt
    obtain ⟨h1, h2⟩ := h
    omega

theorem c8_witness : undo initState = initState :=
  c8_cursor_invariant.2.1 initState (by decide)

end WhitespaceCleaner
